import Mathlib

/-!
Verification of the binomial-tree option pricing library
(`binomial_tree_model` in `models.py`; `european_option`, `american_option`,
`barrier_option` in `options.py`; demonstrated in `binom_options.ipynb`).

The pricing modules `models.py` and `options.py` are not part of the
repository snapshot (only the notebook that calls them and the README are),
so the lattice model and the three pricing engines below are modelled from
the specification, faithful to its formulas: the lattice derives
`d = 1/u`, `Δt = T/N`, `q = (exp(r·Δt) − d)/(u − d)`; the engines share the
rank-by-rank backward-induction skeleton with per-node value rules
(European: pure continuation; American: max of intrinsic and continuation;
Barrier: knock-in/knock-out overrides at barrier-side nodes).
-/

namespace BinomOptions

/-- Modelled from the spec: the `binomial_tree_model` class of `models.py`
(missing from the repository snapshot).  Immutable record of the four
scalar inputs `(u, r, T, N)`; derived values are exposed as read-only
functions of the record. -/
structure binomial_tree_model where
  u : ℝ
  r : ℝ
  T : ℝ
  N : ℕ

/-- Modelled from the spec: the derived down factor `d = 1/u`. -/
noncomputable def binomial_tree_model.d (m : binomial_tree_model) : ℝ := 1 / m.u

/-- Modelled from the spec: the derived step size `Δt = T/N`. -/
noncomputable def binomial_tree_model.dt (m : binomial_tree_model) : ℝ := m.T / (m.N : ℝ)

/-- Modelled from the spec: the derived risk-neutral probability
`q = (exp(r·Δt) − d)/(u − d)`. -/
noncomputable def binomial_tree_model.q (m : binomial_tree_model) : ℝ :=
  (Real.exp (m.r * m.dt) - m.d) / (m.u - m.d)

/-- Modelled from the spec: the per-step discount factor `e^{−r·Δt}`
(continuous compounding, consistent with the derivation of `q`). -/
noncomputable def binomial_tree_model.disc (m : binomial_tree_model) : ℝ :=
  Real.exp (-(m.r * m.dt))

/-- Modelled from the spec: the distinct configuration errors of the
lattice constructor (`u ≤ 1`, `N ≤ 0`, `q` outside `[0,1]`). -/
inductive ConfigError
  | up_factor_error
  | steps_error
  | arbitrage_error
deriving DecidableEq

/-- Modelled from the spec: the contract error of the barrier engine
(barrier level inconsistent with direction/action). -/
inductive ContractError
  | barrier_level_error
deriving DecidableEq

/-- Modelled from the spec: the validating constructor of
`binomial_tree_model`: fails with a distinct configuration error when
`u ≤ 1`, when `N ≤ 0`, or when the derived `q` lies outside `[0,1]`;
otherwise returns the immutable model, with no clamping. -/
noncomputable def mk_model (u r T : ℝ) (N : ℤ) : Except ConfigError binomial_tree_model :=
  if u ≤ 1 then .error .up_factor_error
  else if N ≤ 0 then .error .steps_error
  else if (binomial_tree_model.mk u r T N.toNat).q < 0 ∨
       1 < (binomial_tree_model.mk u r T N.toNat).q then .error .arbitrage_error
  else .ok (binomial_tree_model.mk u r T N.toNat)

/-- Modelled from the spec: the intrinsic payoff,
`max(0, S − K)` for calls and `max(0, K − S)` for puts. -/
noncomputable def intrinsic (is_call : Bool) (K S : ℝ) : ℝ :=
  if is_call then max 0 (S - K) else max 0 (K - S)

/-- Modelled from the spec: the stock price at lattice node `(i,j)`,
`S(i,j) = S0 · u^j · d^(i−j)`. -/
noncomputable def node_price (m : binomial_tree_model) (S0 : ℝ) (i j : ℕ) : ℝ :=
  S0 * m.u ^ j * m.d ^ (i - j)

/-- Modelled from the spec: the continuation value computed from the
already-known next rank, `e^{−r·Δt} · [q·V(i+1,j+1) + (1−q)·V(i+1,j)]`
(`prev` is the rank-`(i+1)` value sequence, indexed by up-move count). -/
noncomputable def cont (m : binomial_tree_model) (prev : List ℝ) (j : ℕ) : ℝ :=
  m.disc * (m.q * prev.getD (j + 1) 0 + (1 - m.q) * prev.getD j 0)

/-- Modelled from the spec: the terminal rank of the shared skeleton,
intrinsic payoffs for all `j ∈ [0,N]` at rank `i = N`. -/
noncomputable def terminal_rank (m : binomial_tree_model) (S0 K : ℝ) (c : Bool) : List ℝ :=
  (List.range (m.N + 1)).map fun j => intrinsic c K (node_price m S0 m.N j)

/-- Modelled from the spec: the rank-by-rank backward-induction driver of the
shared skeleton: starting from the rank-`k` value sequence, repeatedly apply
the engine's step (which builds rank `i` from rank `i+1`) down to rank `0`. -/
def backward (step : List ℝ → ℕ → List ℝ) : ℕ → List ℝ → List ℝ
  | 0, v => v
  | k + 1, v => backward step k (step v k)

/-- Modelled from the spec: the European engine's rank step — every node of
rank `i` is the pure continuation value (no early-exercise test). -/
noncomputable def euro_step (m : binomial_tree_model) (prev : List ℝ) (i : ℕ) : List ℝ :=
  (List.range (i + 1)).map fun j => cont m prev j

/-- Modelled from the spec: the American engine's rank step — every node of
rank `i` is the maximum of the intrinsic value and the continuation value. -/
noncomputable def amer_step (m : binomial_tree_model) (S0 K : ℝ) (c : Bool)
    (prev : List ℝ) (i : ℕ) : List ℝ :=
  (List.range (i + 1)).map fun j =>
    max (intrinsic c K (node_price m S0 i j)) (cont m prev j)

/-- Modelled from the spec: `european_option.price` of `options.py`
(missing from the repository snapshot): terminal payoffs at rank `N`,
pure-continuation backward induction, output `V(0,0)`. -/
noncomputable def european_price (m : binomial_tree_model) (S0 K : ℝ) (c : Bool) : ℝ :=
  (backward (euro_step m) m.N (terminal_rank m S0 K c)).getD 0 0

/-- Modelled from the spec: `american_option.price` of `options.py`
(missing from the repository snapshot): terminal payoffs at rank `N`,
early-exercise comparison at every interior node including `i = 0`,
output `V(0,0)`. -/
noncomputable def american_price (m : binomial_tree_model) (S0 K : ℝ) (c : Bool) : ℝ :=
  (backward (amer_step m S0 K c) m.N (terminal_rank m S0 K c)).getD 0 0

/-- The backward-induction recurrence for the European value `V(i,j)`:
intrinsic payoff at the terminal rank, pure continuation below it. -/
noncomputable def euV (m : binomial_tree_model) (S0 K : ℝ) (c : Bool) (i j : ℕ) : ℝ :=
  if i < m.N then
    m.disc * (m.q * euV m S0 K c (i + 1) (j + 1) + (1 - m.q) * euV m S0 K c (i + 1) j)
  else intrinsic c K (node_price m S0 i j)
termination_by m.N - i

/-- The backward-induction recurrence for the American value `V(i,j)`:
intrinsic payoff at the terminal rank, max of intrinsic and continuation
at every interior node. -/
noncomputable def amV (m : binomial_tree_model) (S0 K : ℝ) (c : Bool) (i j : ℕ) : ℝ :=
  if i < m.N then
    max (intrinsic c K (node_price m S0 i j))
      (m.disc * (m.q * amV m S0 K c (i + 1) (j + 1) + (1 - m.q) * amV m S0 K c (i + 1) j))
  else intrinsic c K (node_price m S0 i j)
termination_by m.N - i

/-- Modelled from the spec: the inclusive knock condition — a node price `S`
is at or beyond the barrier: `S ≥ H` for an up barrier, `S ≤ H` for a down
barrier. -/
def knocked : Bool → ℝ → ℝ → Prop
  | true, H, S => H ≤ S
  | false, H, S => S ≤ H

noncomputable instance : ∀ (b : Bool) (H S : ℝ), Decidable (knocked b H S)
  | true, H, S => inferInstanceAs (Decidable (H ≤ S))
  | false, H, S => inferInstanceAs (Decidable (S ≤ H))

/-- Modelled from the spec: the knock-out value recurrence of the barrier
engine (direct backward induction, discrete monitoring): a node whose own
price is at or beyond the barrier is forced to 0; elsewhere the terminal
rank carries the intrinsic payoff and interior nodes the continuation. -/
noncomputable def outV (m : binomial_tree_model) (S0 K H : ℝ) (c isUp : Bool) (i j : ℕ) : ℝ :=
  if knocked isUp H (node_price m S0 i j) then 0
  else if i < m.N then
    m.disc * (m.q * outV m S0 K H c isUp (i + 1) (j + 1)
      + (1 - m.q) * outV m S0 K H c isUp (i + 1) j)
  else intrinsic c K (node_price m S0 i j)
termination_by m.N - i

/-- Modelled from the spec: the knock-in value recurrence of the barrier
engine: a node whose own price is at or beyond the barrier takes the vanilla
(European) value; elsewhere the terminal rank is 0 (never activated) and
interior nodes carry the continuation of the still-inactive branch. -/
noncomputable def inV (m : binomial_tree_model) (S0 K H : ℝ) (c isUp : Bool) (i j : ℕ) : ℝ :=
  if knocked isUp H (node_price m S0 i j) then euV m S0 K c i j
  else if i < m.N then
    m.disc * (m.q * inV m S0 K H c isUp (i + 1) (j + 1)
      + (1 - m.q) * inV m S0 K H c isUp (i + 1) j)
  else 0
termination_by m.N - i

/-- Modelled from the spec: the four barrier contract variants of
`barrier_option` in `options.py`. -/
inductive barrier_type
  | up_and_in
  | up_and_out
  | down_and_in
  | down_and_out
deriving DecidableEq

/-- Modelled from the spec: the root value `V(0,0)` of the barrier engine's
recurrence for each variant. -/
noncomputable def barrier_value (m : binomial_tree_model) (S0 K H : ℝ) (c : Bool) :
    barrier_type → ℝ
  | .up_and_in => inV m S0 K H c true 0 0
  | .up_and_out => outV m S0 K H c true 0 0
  | .down_and_in => inV m S0 K H c false 0 0
  | .down_and_out => outV m S0 K H c false 0 0

/-- Modelled from the spec: `barrier_option.price` of `options.py` (missing
from the repository snapshot): a barrier level on the wrong side of `S0`
relative to the direction is an explicit contract error for out-options
(the option would be worthless at the start); otherwise the engine prices
the contract by backward induction. -/
noncomputable def barrier_price (m : binomial_tree_model) (S0 K H : ℝ) (c : Bool) :
    barrier_type → Except ContractError ℝ
  | .up_and_out =>
      if H ≤ S0 then .error .barrier_level_error
      else .ok (barrier_value m S0 K H c .up_and_out)
  | .down_and_out =>
      if S0 ≤ H then .error .barrier_level_error
      else .ok (barrier_value m S0 K H c .down_and_out)
  | .up_and_in => .ok (barrier_value m S0 K H c .up_and_in)
  | .down_and_in => .ok (barrier_value m S0 K H c .down_and_in)

/-! ### Rank lists versus the `(i,j)` recurrence -/

lemma getD_map_range (n : ℕ) (f : ℕ → ℝ) (i : ℕ) (h : i < n) :
    ((List.range n).map f).getD i 0 = f i := by
  simp [List.getD_eq_getElem?_getD, List.getElem?_map, List.getElem?_range h]

lemma backward_map_eq (step : List ℝ → ℕ → List ℝ) (V : ℕ → ℕ → ℝ) (n : ℕ)
    (hstep : ∀ k, k < n → step ((List.range (k + 2)).map (V (k + 1))) k =
      (List.range (k + 1)).map (V k)) :
    ∀ k, k ≤ n → backward step k ((List.range (k + 1)).map (V k)) = [V 0 0] := by
  intro k
  induction k with
  | zero => intro _; simp [backward, List.range_succ]
  | succ k ih =>
      intro hk
      rw [backward, hstep k (by omega)]
      exact ih (by omega)

lemma euro_step_map (m : binomial_tree_model) (S0 K : ℝ) (c : Bool) (k : ℕ) (hk : k < m.N) :
    euro_step m ((List.range (k + 2)).map (euV m S0 K c (k + 1))) k =
      (List.range (k + 1)).map (euV m S0 K c k) := by
  unfold euro_step
  refine List.map_congr_left fun j hj => ?_
  rw [List.mem_range] at hj
  rw [cont, getD_map_range _ _ _ (by omega), getD_map_range _ _ _ (by omega)]
  conv_rhs => rw [euV]
  rw [if_pos hk]

lemma amer_step_map (m : binomial_tree_model) (S0 K : ℝ) (c : Bool) (k : ℕ) (hk : k < m.N) :
    amer_step m S0 K c ((List.range (k + 2)).map (amV m S0 K c (k + 1))) k =
      (List.range (k + 1)).map (amV m S0 K c k) := by
  unfold amer_step
  refine List.map_congr_left fun j hj => ?_
  rw [List.mem_range] at hj
  rw [cont, getD_map_range _ _ _ (by omega), getD_map_range _ _ _ (by omega)]
  conv_rhs => rw [amV]
  rw [if_pos hk]

lemma terminal_rank_eq_euV (m : binomial_tree_model) (S0 K : ℝ) (c : Bool) :
    terminal_rank m S0 K c = (List.range (m.N + 1)).map (euV m S0 K c m.N) := by
  unfold terminal_rank
  refine List.map_congr_left fun j _ => ?_
  rw [euV]
  simp

lemma terminal_rank_eq_amV (m : binomial_tree_model) (S0 K : ℝ) (c : Bool) :
    terminal_rank m S0 K c = (List.range (m.N + 1)).map (amV m S0 K c m.N) := by
  unfold terminal_rank
  refine List.map_congr_left fun j _ => ?_
  rw [amV]
  simp

lemma european_price_eq (m : binomial_tree_model) (S0 K : ℝ) (c : Bool) :
    european_price m S0 K c = euV m S0 K c 0 0 := by
  unfold european_price
  rw [terminal_rank_eq_euV,
    backward_map_eq (euro_step m) (euV m S0 K c) m.N
      (fun k hk => euro_step_map m S0 K c k hk) m.N le_rfl]
  rfl

lemma american_price_eq (m : binomial_tree_model) (S0 K : ℝ) (c : Bool) :
    american_price m S0 K c = amV m S0 K c 0 0 := by
  unfold american_price
  rw [terminal_rank_eq_amV,
    backward_map_eq (amer_step m S0 K c) (amV m S0 K c) m.N
      (fun k hk => amer_step_map m S0 K c k hk) m.N le_rfl]
  rfl

/-- C1: for every lattice model `(u, r, T, N)` and every contract
`(S0, K, is_call)`, `european_price` returns `V(0,0)` of the
backward-induction recurrence in which the terminal rank is the intrinsic
payoff, `V(N,j) = max(0, S(N,j) − K)` for calls and `max(0, K − S(N,j))`
for puts with `S(i,j) = S0·u^j·d^(i−j)`, and every interior node with
`i < N` is the pure continuation value
`e^{−r·Δt}·(q·V(i+1,j+1) + (1−q)·V(i+1,j))`, with no early-exercise test. -/
theorem european_price_is_recurrence_root (m : binomial_tree_model) (S0 K : ℝ) (c : Bool) :
    european_price m S0 K c = euV m S0 K c 0 0 ∧
    (∀ j, euV m S0 K c m.N j =
      if c then max 0 (node_price m S0 m.N j - K) else max 0 (K - node_price m S0 m.N j)) ∧
    (∀ i j, i < m.N → euV m S0 K c i j =
      Real.exp (-(m.r * m.dt)) *
        (m.q * euV m S0 K c (i + 1) (j + 1) + (1 - m.q) * euV m S0 K c (i + 1) j)) := by
  refine ⟨european_price_eq m S0 K c, fun j => ?_, fun i j h => ?_⟩
  · rw [euV, if_neg (lt_irrefl _)]
    rfl
  · conv_lhs => rw [euV]
    rw [if_pos h]
    rfl

/-- Witness for C1 at the reference configuration
`u = 1.1, r = 0.06, T = 1, N = 3, S0 = K = 100`, call. -/
theorem european_price_is_recurrence_root_witness :
    (0 : ℕ) < 3 ∧
    european_price ⟨1.1, 0.06, 1, 3⟩ 100 100 true = euV ⟨1.1, 0.06, 1, 3⟩ 100 100 true 0 0 ∧
    euV ⟨1.1, 0.06, 1, 3⟩ 100 100 true 0 0 =
      (⟨1.1, 0.06, 1, 3⟩ : binomial_tree_model).disc *
        ((⟨1.1, 0.06, 1, 3⟩ : binomial_tree_model).q * euV ⟨1.1, 0.06, 1, 3⟩ 100 100 true 1 1 +
          (1 - (⟨1.1, 0.06, 1, 3⟩ : binomial_tree_model).q) *
            euV ⟨1.1, 0.06, 1, 3⟩ 100 100 true 1 0) :=
  ⟨by norm_num,
    (european_price_is_recurrence_root ⟨1.1, 0.06, 1, 3⟩ 100 100 true).1,
    (european_price_is_recurrence_root ⟨1.1, 0.06, 1, 3⟩ 100 100 true).2.2 0 0 (by norm_num)⟩

/-- C2: for every lattice model and every contract, `american_price` returns
`V(0,0)` of the backward-induction recurrence with the same terminal
condition and discounting as the European engine, but with node rule
`V(i,j) = max(intrinsic(i,j), C_cont(i,j))` at every interior node
including `i = 0`, where the intrinsic value is `max(0, K − S(i,j))` for
puts and `max(0, S(i,j) − K)` for calls. -/
theorem american_price_is_recurrence_root (m : binomial_tree_model) (S0 K : ℝ) (c : Bool) :
    american_price m S0 K c = amV m S0 K c 0 0 ∧
    (∀ j, amV m S0 K c m.N j =
      if c then max 0 (node_price m S0 m.N j - K) else max 0 (K - node_price m S0 m.N j)) ∧
    (∀ i j, i < m.N → amV m S0 K c i j =
      max (if c then max 0 (node_price m S0 i j - K) else max 0 (K - node_price m S0 i j))
        (Real.exp (-(m.r * m.dt)) *
          (m.q * amV m S0 K c (i + 1) (j + 1) + (1 - m.q) * amV m S0 K c (i + 1) j))) := by
  refine ⟨american_price_eq m S0 K c, fun j => ?_, fun i j h => ?_⟩
  · rw [amV, if_neg (lt_irrefl _)]
    rfl
  · conv_lhs => rw [amV]
    rw [if_pos h]
    rfl

/-- Witness for C2 at the reference configuration, with the early-exercise
comparison instantiated at the root node `i = 0`. -/
theorem american_price_is_recurrence_root_witness :
    (0 : ℕ) < 3 ∧
    american_price ⟨1.1, 0.06, 1, 3⟩ 100 100 false = amV ⟨1.1, 0.06, 1, 3⟩ 100 100 false 0 0 ∧
    amV ⟨1.1, 0.06, 1, 3⟩ 100 100 false 0 0 =
      max (max 0 (100 - node_price ⟨1.1, 0.06, 1, 3⟩ 100 0 0))
        ((⟨1.1, 0.06, 1, 3⟩ : binomial_tree_model).disc *
          ((⟨1.1, 0.06, 1, 3⟩ : binomial_tree_model).q * amV ⟨1.1, 0.06, 1, 3⟩ 100 100 false 1 1 +
            (1 - (⟨1.1, 0.06, 1, 3⟩ : binomial_tree_model).q) *
              amV ⟨1.1, 0.06, 1, 3⟩ 100 100 false 1 0)) :=
  ⟨by norm_num,
    (american_price_is_recurrence_root ⟨1.1, 0.06, 1, 3⟩ 100 100 false).1,
    (american_price_is_recurrence_root ⟨1.1, 0.06, 1, 3⟩ 100 100 false).2.2 0 0 (by norm_num)⟩

/-! ### Numeric bounds for the reference configuration
`u = 1.1, r = 0.06, T = 1, N = 3`, whose per-step growth factor is
`exp(0.02)`. -/

lemma exp_pt02_pow_fifty : Real.exp 0.02 ^ (50 : ℕ) = Real.exp 1 := by
  rw [← Real.exp_nat_mul, Real.exp_eq_exp]
  norm_num

lemma exp_pt02_gt : (1.0202013400 : ℝ) < Real.exp 0.02 := by
  apply lt_of_pow_lt_pow_left₀ 50 (le_of_lt (Real.exp_pos 0.02))
  rw [exp_pt02_pow_fifty]
  calc ((1.0202013400 : ℝ)) ^ (50 : ℕ) < 2.7182818283 := by norm_num
    _ < Real.exp 1 := Real.exp_one_gt_d9

lemma exp_pt02_lt : Real.exp 0.02 < 1.0202013401 := by
  apply lt_of_pow_lt_pow_left₀ 50 (by norm_num)
  rw [exp_pt02_pow_fifty]
  calc Real.exp 1 < 2.7182818286 := Real.exp_one_lt_d9
    _ < ((1.0202013401 : ℝ)) ^ (50 : ℕ) := by norm_num

/-- The reference lattice model of the notebook run. -/
noncomputable def refModel : binomial_tree_model := binomial_tree_model.mk 1.1 0.06 1 3

lemma refModel_dt : refModel.dt = 1 / 3 := by
  unfold refModel binomial_tree_model.dt
  norm_num

lemma refModel_q : refModel.q = (Real.exp 0.02 - 1 / 1.1) / (1.1 - 1 / 1.1) := by
  unfold refModel binomial_tree_model.q binomial_tree_model.d binomial_tree_model.dt
  norm_num

lemma refModel_disc : refModel.disc = (Real.exp 0.02)⁻¹ := by
  unfold refModel binomial_tree_model.disc binomial_tree_model.dt
  rw [show -((0.06 : ℝ) * (1 / ((3 : ℕ) : ℝ))) = -0.02 by norm_num, Real.exp_neg]

lemma refModel_q_nonneg : 0 ≤ refModel.q := by
  rw [refModel_q]
  have h := exp_pt02_gt
  apply div_nonneg <;> nlinarith

lemma refModel_q_le_one : refModel.q ≤ 1 := by
  rw [refModel_q]
  have h := exp_pt02_lt
  rw [div_le_one (by norm_num)]
  nlinarith

lemma mk_model_ref : mk_model 1.1 0.06 1 3 = .ok refModel := by
  unfold mk_model
  rw [if_neg (by norm_num), if_neg (by norm_num), if_neg ?_]
  · rfl
  · push_neg
    exact ⟨refModel_q_nonneg, refModel_q_le_one⟩

/-- C6: the `binomial_tree_model` constructor fails with a distinct
configuration error for each condition — `u ≤ 1`, `N ≤ 0`, derived `q`
outside `[0,1]` — with no clamping and no partial result, and succeeds with
`0 ≤ q ≤ 1` exactly when none of the conditions holds. -/
theorem mk_model_characterization (u r T : ℝ) (N : ℤ) :
    (mk_model u r T N = .error .up_factor_error ↔ u ≤ 1) ∧
    (mk_model u r T N = .error .steps_error ↔ 1 < u ∧ N ≤ 0) ∧
    (mk_model u r T N = .error .arbitrage_error ↔ 1 < u ∧ 0 < N ∧
      ((binomial_tree_model.mk u r T N.toNat).q < 0 ∨
        1 < (binomial_tree_model.mk u r T N.toNat).q)) ∧
    (mk_model u r T N = .ok (binomial_tree_model.mk u r T N.toNat) ↔ 1 < u ∧ 0 < N ∧
      0 ≤ (binomial_tree_model.mk u r T N.toNat).q ∧
      (binomial_tree_model.mk u r T N.toNat).q ≤ 1) ∧
    (∀ m, mk_model u r T N = .ok m →
      0 ≤ m.q ∧ m.q ≤ 1 ∧ m = binomial_tree_model.mk u r T N.toNat) := by
  unfold mk_model
  split_ifs with h1 h2 h3
  · exact ⟨by simp [h1], by simp [h1.not_lt], by simp [h1.not_lt], by simp [h1.not_lt], by simp⟩
  · exact ⟨by simp [h1], by simp [h2, not_le.mp h1], by simp [h2.not_lt], by simp [h2.not_lt],
      by simp⟩
  · refine ⟨by simp [h1], by simp [h2], by simp [not_le.mp h1, not_le.mp h2, h3], ?_, by simp⟩
    rcases h3 with hq | hq <;> simp [hq.not_le]
  · push_neg at h3
    refine ⟨by simp [h1], by simp [h2], by simp [h3.1.not_lt, h3.2.not_lt],
      by simp [not_le.mp h1, not_le.mp h2, h3.1, h3.2], ?_⟩
    intro m hm
    rw [Except.ok.injEq] at hm
    exact ⟨hm ▸ h3.1, hm ▸ h3.2, hm.symm⟩

/-- Witness for C6: a distinct error for `u ≤ 1`, a distinct error for
`N ≤ 0`, and a successful construction at the reference parameters. -/
theorem mk_model_characterization_witness :
    mk_model 0.9 0.06 1 3 = .error .up_factor_error ∧
    mk_model 1.1 0.06 1 (-2) = .error .steps_error ∧
    mk_model 1.1 0.06 1 3 = .ok (binomial_tree_model.mk 1.1 0.06 1 (3 : ℤ).toNat) :=
  ⟨(mk_model_characterization 0.9 0.06 1 3).1.mpr (by norm_num),
   (mk_model_characterization 1.1 0.06 1 (-2)).2.1.mpr ⟨by norm_num, by norm_num⟩,
   (mk_model_characterization 1.1 0.06 1 3).2.2.2.1.mpr
     ⟨by norm_num, by norm_num, refModel_q_nonneg, refModel_q_le_one⟩⟩

/-- C3: every successful construction stores exactly the four inputs and
exposes exactly the derived values `d = 1/u`, `Δt = T/N`, and
`q = (exp(r·Δt) − d)/(u − d)`; the model record is immutable, so the
derived values are fixed for its lifetime. -/
theorem model_exposes_derived_values (u r T : ℝ) (N : ℤ) (m : binomial_tree_model)
    (h : mk_model u r T N = .ok m) :
    m.u = u ∧ m.r = r ∧ m.T = T ∧ ((m.N : ℤ)) = N ∧
    m.d = 1 / u ∧ m.dt = T / ((N : ℝ)) ∧
    m.q = (Real.exp (r * (T / ((N : ℝ)))) - 1 / u) / (u - 1 / u) := by
  unfold mk_model at h
  split_ifs at h with h1 h2 h3
  rw [Except.ok.injEq] at h
  subst h
  have hN : ((N.toNat : ℤ)) = N := Int.toNat_of_nonneg (by omega)
  have hNR : ((N.toNat : ℝ)) = ((N : ℝ)) := by exact_mod_cast hN
  refine ⟨rfl, rfl, rfl, hN, rfl, ?_, ?_⟩
  · show T / ((N.toNat : ℝ)) = T / ((N : ℝ))
    rw [hNR]
  · show (Real.exp (r * (T / ((N.toNat : ℝ)))) - 1 / u) / (u - 1 / u) = _
    rw [hNR]

/-- Witness for C3 at the reference model. -/
theorem model_exposes_derived_values_witness :
    mk_model 1.1 0.06 1 3 = .ok refModel ∧
    refModel.d = 1 / 1.1 ∧ refModel.dt = 1 / (((3 : ℤ) : ℝ)) ∧
    refModel.q = (Real.exp (0.06 * (1 / (((3 : ℤ) : ℝ)))) - 1 / 1.1) / (1.1 - 1 / 1.1) :=
  ⟨mk_model_ref,
   (model_exposes_derived_values 1.1 0.06 1 3 refModel mk_model_ref).2.2.2.2.1,
   (model_exposes_derived_values 1.1 0.06 1 3 refModel mk_model_ref).2.2.2.2.2.1,
   (model_exposes_derived_values 1.1 0.06 1 3 refModel mk_model_ref).2.2.2.2.2.2⟩

/-! ### Barrier engine: decomposition, knock condition, contract error -/

lemma inV_add_outV (m : binomial_tree_model) (S0 K H : ℝ) (c isUp : Bool) :
    ∀ i j, inV m S0 K H c isUp i j + outV m S0 K H c isUp i j = euV m S0 K c i j := by
  suffices hs : ∀ k i j, m.N - i ≤ k →
      inV m S0 K H c isUp i j + outV m S0 K H c isUp i j = euV m S0 K c i j by
    exact fun i j => hs (m.N - i) i j le_rfl
  intro k
  induction k with
  | zero =>
      intro i j hk
      have hN : ¬ i < m.N := by omega
      by_cases hbr : knocked isUp H (node_price m S0 i j)
      · rw [inV, if_pos hbr, outV, if_pos hbr, add_zero]
      · rw [inV, if_neg hbr, if_neg hN, outV, if_neg hbr, if_neg hN, euV, if_neg hN, zero_add]
  | succ k ih =>
      intro i j hk
      by_cases hbr : knocked isUp H (node_price m S0 i j)
      · rw [inV, if_pos hbr, outV, if_pos hbr, add_zero]
      · by_cases hN : i < m.N
        · rw [inV, if_neg hbr, if_pos hN, outV, if_neg hbr, if_pos hN]
          conv_rhs => rw [euV]
          rw [if_pos hN, ← ih (i + 1) (j + 1) (by omega), ← ih (i + 1) j (by omega)]
          ring
        · rw [inV, if_neg hbr, if_neg hN, outV, if_neg hbr, if_neg hN, euV, if_neg hN, zero_add]

/-- C4: the decomposition identity — whenever the knock-in and knock-out
barrier prices of a matching pair (same `H`, option type, and direction)
are both returned, their sum equals the vanilla European price, exactly
(hence within any relative tolerance). -/
theorem barrier_decomposition (m : binomial_tree_model) (S0 K H : ℝ) (c : Bool) :
    (∀ vin vout, barrier_price m S0 K H c .up_and_in = .ok vin →
      barrier_price m S0 K H c .up_and_out = .ok vout →
      vin + vout = european_price m S0 K c) ∧
    (∀ vin vout, barrier_price m S0 K H c .down_and_in = .ok vin →
      barrier_price m S0 K H c .down_and_out = .ok vout →
      vin + vout = european_price m S0 K c) := by
  constructor
  · intro vin vout h1 h2
    rw [show barrier_price m S0 K H c .up_and_in = .ok (inV m S0 K H c true 0 0) from rfl,
      Except.ok.injEq] at h1
    rw [show barrier_price m S0 K H c .up_and_out =
        (if H ≤ S0 then .error .barrier_level_error
          else .ok (outV m S0 K H c true 0 0)) from rfl] at h2
    split_ifs at h2
    rw [Except.ok.injEq] at h2
    rw [← h1, ← h2, european_price_eq]
    exact inV_add_outV m S0 K H c true 0 0
  · intro vin vout h1 h2
    rw [show barrier_price m S0 K H c .down_and_in = .ok (inV m S0 K H c false 0 0) from rfl,
      Except.ok.injEq] at h1
    rw [show barrier_price m S0 K H c .down_and_out =
        (if S0 ≤ H then .error .barrier_level_error
          else .ok (outV m S0 K H c false 0 0)) from rfl] at h2
    split_ifs at h2
    rw [Except.ok.injEq] at h2
    rw [← h1, ← h2, european_price_eq]
    exact inV_add_outV m S0 K H c false 0 0

/-- Witness for C4: the up-pair at the reference configuration with
`H = 125` decomposes into the vanilla European call price. -/
theorem barrier_decomposition_witness :
    inV refModel 100 100 125 true true 0 0 + outV refModel 100 100 125 true true 0 0 =
      european_price refModel 100 100 true :=
  (barrier_decomposition refModel 100 100 125 true).1
    (inV refModel 100 100 125 true true 0 0) (outV refModel 100 100 125 true true 0 0)
    rfl
    (by rw [show barrier_price refModel 100 100 125 true .up_and_out =
          (if (125 : ℝ) ≤ 100 then .error .barrier_level_error
            else .ok (outV refModel 100 100 125 true true 0 0)) from rfl,
        if_neg (by norm_num)])

/-- C5: the knock condition is inclusive — at any node whose price is at or
beyond the barrier (`S ≥ H` for an up barrier, `S ≤ H` for a down barrier),
the knock-out value is forced to `0` and the knock-in value equals the
vanilla value; and a node price exactly equal to `H` satisfies the knock
condition of either direction, so the boundary case takes the breached
branch. -/
theorem barrier_knock_inclusive (m : binomial_tree_model) (S0 K H : ℝ) (c : Bool) (i j : ℕ) :
    (∀ isUp : Bool, knocked isUp H (node_price m S0 i j) →
      outV m S0 K H c isUp i j = 0 ∧ inV m S0 K H c isUp i j = euV m S0 K c i j) ∧
    (∀ isUp : Bool, node_price m S0 i j = H → knocked isUp H (node_price m S0 i j)) := by
  constructor
  · intro isUp hbr
    rw [outV, if_pos hbr, inV, if_pos hbr]
    exact ⟨rfl, rfl⟩
  · intro isUp hEq
    cases isUp
    · exact le_of_eq hEq
    · exact ge_of_eq hEq

/-- Witness for C5: at the reference model with `S0 = H = 100` the root node
price equals the barrier exactly, the knock condition holds, the up-and-out
value at the root is `0`, and the up-and-in value is the vanilla value. -/
theorem barrier_knock_inclusive_witness :
    node_price refModel 100 0 0 = 100 ∧
    knocked true 100 (node_price refModel 100 0 0) ∧
    outV refModel 100 100 100 true true 0 0 = 0 ∧
    inV refModel 100 100 100 true true 0 0 = euV refModel 100 100 true 0 0 := by
  have hprice : node_price refModel 100 0 0 = 100 := by
    unfold node_price
    norm_num
  have hknock : knocked true 100 (node_price refModel 100 0 0) :=
    (barrier_knock_inclusive refModel 100 100 100 true 0 0).2 true hprice
  have h := (barrier_knock_inclusive refModel 100 100 100 true 0 0).1 true hknock
  exact ⟨hprice, hknock, h.1, h.2⟩

/-- C10: `barrier_price` fails with an explicit contract error (it does not
return a price) whenever the barrier level is on the wrong side of `S0` for
an out-option: an up barrier at or below `S0`, or a down barrier at or
above `S0`. -/
theorem barrier_wrong_side_error (m : binomial_tree_model) (S0 K H : ℝ) (c : Bool) :
    (H ≤ S0 → barrier_price m S0 K H c .up_and_out = .error .barrier_level_error) ∧
    (S0 ≤ H → barrier_price m S0 K H c .down_and_out = .error .barrier_level_error) := by
  constructor
  · intro h
    rw [show barrier_price m S0 K H c .up_and_out =
        (if H ≤ S0 then .error .barrier_level_error
          else .ok (outV m S0 K H c true 0 0)) from rfl, if_pos h]
  · intro h
    rw [show barrier_price m S0 K H c .down_and_out =
        (if S0 ≤ H then .error .barrier_level_error
          else .ok (outV m S0 K H c false 0 0)) from rfl, if_pos h]

/-- Witness for C10: an up barrier exactly at `S0` and a down barrier
exactly at `S0` are both rejected for out-options. -/
theorem barrier_wrong_side_error_witness :
    barrier_price refModel 100 100 100 true .up_and_out = .error .barrier_level_error ∧
    barrier_price refModel 100 100 100 false .down_and_out = .error .barrier_level_error :=
  ⟨(barrier_wrong_side_error refModel 100 100 100 true).1 (by norm_num),
   (barrier_wrong_side_error refModel 100 100 100 false).2 (by norm_num)⟩

/-! ### American versus European prices -/

lemma node_price_up (m : binomial_tree_model) (S0 : ℝ) (i j : ℕ) :
    node_price m S0 (i + 1) (j + 1) = node_price m S0 i j * m.u := by
  unfold node_price
  rw [Nat.succ_sub_succ]
  ring

lemma node_price_down (m : binomial_tree_model) (S0 : ℝ) (i j : ℕ) (h : j ≤ i) :
    node_price m S0 (i + 1) j = node_price m S0 i j * m.d := by
  unfold node_price
  rw [show i + 1 - j = (i - j) + 1 by omega, pow_succ]
  ring

lemma node_price_nonneg (m : binomial_tree_model) (S0 : ℝ) (hS0 : 0 ≤ S0) (hu : 0 ≤ m.u)
    (i j : ℕ) : 0 ≤ node_price m S0 i j := by
  have hd : 0 ≤ m.d := by
    unfold binomial_tree_model.d
    positivity
  exact mul_nonneg (mul_nonneg hS0 (pow_nonneg hu j)) (pow_nonneg hd _)

lemma risk_neutral_identity (m : binomial_tree_model) (hu : 1 < m.u) :
    m.q * m.u + (1 - m.q) * m.d = Real.exp (m.r * m.dt) := by
  have hu0 : (0 : ℝ) < m.u := by linarith
  have hd_lt : m.d < m.u := by
    unfold binomial_tree_model.d
    rw [div_lt_iff₀ hu0]
    nlinarith
  have hud : m.u - m.d ≠ 0 := ne_of_gt (sub_pos.mpr hd_lt)
  unfold binomial_tree_model.q
  field_simp
  ring

lemma disc_mul_exp (m : binomial_tree_model) : m.disc * Real.exp (m.r * m.dt) = 1 := by
  unfold binomial_tree_model.disc
  rw [← Real.exp_add]
  simp

lemma disc_le_one (m : binomial_tree_model) (h : 0 ≤ m.r * m.dt) : m.disc ≤ 1 := by
  unfold binomial_tree_model.disc
  rw [Real.exp_le_one_iff]
  linarith

lemma call_intrinsic_le_euV (m : binomial_tree_model) (S0 K : ℝ)
    (hu : 1 < m.u) (hq0 : 0 ≤ m.q) (hq1 : m.q ≤ 1)
    (hS0 : 0 ≤ S0) (hK : 0 ≤ K) (hrdt : 0 ≤ m.r * m.dt) :
    ∀ i j, j ≤ i → max 0 (node_price m S0 i j - K) ≤ euV m S0 K true i j := by
  have hu0 : (0 : ℝ) ≤ m.u := by linarith
  suffices hs : ∀ k i j, m.N - i ≤ k → j ≤ i →
      max 0 (node_price m S0 i j - K) ≤ euV m S0 K true i j by
    exact fun i j hij => hs (m.N - i) i j le_rfl hij
  intro k
  induction k with
  | zero =>
      intro i j hk _
      have hN : ¬ i < m.N := by omega
      rw [euV, if_neg hN]
      exact le_of_eq rfl
  | succ k ih =>
      intro i j hk hij
      by_cases hN : i < m.N
      · rw [euV, if_pos hN]
        have hs0 : 0 ≤ node_price m S0 i j := node_price_nonneg m S0 hS0 hu0 i j
        have h1 := ih (i + 1) (j + 1) (by omega) (by omega)
        have h2 := ih (i + 1) j (by omega) (by omega)
        rw [node_price_up] at h1
        rw [node_price_down m S0 i j hij] at h2
        have hV1 : node_price m S0 i j * m.u - K ≤ euV m S0 K true (i + 1) (j + 1) :=
          le_trans (le_max_right _ _) h1
        have hV1' : 0 ≤ euV m S0 K true (i + 1) (j + 1) := le_trans (le_max_left _ _) h1
        have hV2 : node_price m S0 i j * m.d - K ≤ euV m S0 K true (i + 1) j :=
          le_trans (le_max_right _ _) h2
        have hV2' : 0 ≤ euV m S0 K true (i + 1) j := le_trans (le_max_left _ _) h2
        have hq1' : 0 ≤ 1 - m.q := by linarith
        have hdisc0 : 0 ≤ m.disc := (Real.exp_pos _).le
        apply max_le
        · exact mul_nonneg hdisc0
            (add_nonneg (mul_nonneg hq0 hV1') (mul_nonneg hq1' hV2'))
        · have h3 : m.q * (node_price m S0 i j * m.u - K) ≤
              m.q * euV m S0 K true (i + 1) (j + 1) :=
            mul_le_mul_of_nonneg_left hV1 hq0
          have h4 : (1 - m.q) * (node_price m S0 i j * m.d - K) ≤
              (1 - m.q) * euV m S0 K true (i + 1) j :=
            mul_le_mul_of_nonneg_left hV2 hq1'
          have h5 : m.disc * (m.q * (node_price m S0 i j * m.u - K)
                + (1 - m.q) * (node_price m S0 i j * m.d - K)) ≤
              m.disc * (m.q * euV m S0 K true (i + 1) (j + 1)
                + (1 - m.q) * euV m S0 K true (i + 1) j) :=
            mul_le_mul_of_nonneg_left (by linarith) hdisc0
          have e1 : m.q * (node_price m S0 i j * m.u - K)
                + (1 - m.q) * (node_price m S0 i j * m.d - K) =
              node_price m S0 i j * (m.q * m.u + (1 - m.q) * m.d) - K := by ring
          have e2 : m.disc * (node_price m S0 i j * Real.exp (m.r * m.dt) - K) =
              node_price m S0 i j * (m.disc * Real.exp (m.r * m.dt)) - m.disc * K := by
            ring
          rw [e1, risk_neutral_identity m hu, e2, disc_mul_exp m] at h5
          have h7 : m.disc * K ≤ K := by
            nlinarith [mul_le_mul_of_nonneg_right (disc_le_one m hrdt) hK]
          linarith
      · rw [euV, if_neg hN]
        exact le_of_eq rfl

lemma amV_eq_euV_call (m : binomial_tree_model) (S0 K : ℝ)
    (hu : 1 < m.u) (hq0 : 0 ≤ m.q) (hq1 : m.q ≤ 1)
    (hS0 : 0 ≤ S0) (hK : 0 ≤ K) (hrdt : 0 ≤ m.r * m.dt) :
    ∀ i j, j ≤ i → amV m S0 K true i j = euV m S0 K true i j := by
  suffices hs : ∀ k i j, m.N - i ≤ k → j ≤ i →
      amV m S0 K true i j = euV m S0 K true i j by
    exact fun i j hij => hs (m.N - i) i j le_rfl hij
  intro k
  induction k with
  | zero =>
      intro i j hk _
      have hN : ¬ i < m.N := by omega
      rw [amV, if_neg hN, euV, if_neg hN]
  | succ k ih =>
      intro i j hk hij
      by_cases hN : i < m.N
      · rw [amV, if_pos hN, ih (i + 1) (j + 1) (by omega) (by omega),
          ih (i + 1) j (by omega) (by omega)]
        have hle := call_intrinsic_le_euV m S0 K hu hq0 hq1 hS0 hK hrdt i j hij
        rw [euV, if_pos hN] at hle
        conv_rhs => rw [euV]
        rw [if_pos hN]
        exact max_eq_right hle
      · rw [amV, if_neg hN, euV, if_neg hN]

lemma euV_le_amV (m : binomial_tree_model) (S0 K : ℝ) (c : Bool)
    (hq0 : 0 ≤ m.q) (hq1 : m.q ≤ 1) :
    ∀ i j, euV m S0 K c i j ≤ amV m S0 K c i j := by
  suffices hs : ∀ k i j, m.N - i ≤ k → euV m S0 K c i j ≤ amV m S0 K c i j by
    exact fun i j => hs (m.N - i) i j le_rfl
  intro k
  induction k with
  | zero =>
      intro i j hk
      have hN : ¬ i < m.N := by omega
      rw [euV, if_neg hN, amV, if_neg hN]
  | succ k ih =>
      intro i j hk
      by_cases hN : i < m.N
      · rw [euV, if_pos hN, amV, if_pos hN]
        refine le_max_of_le_right ?_
        have hq1' : 0 ≤ 1 - m.q := by linarith
        refine mul_le_mul_of_nonneg_left ?_ (Real.exp_pos _).le
        exact add_le_add
          (mul_le_mul_of_nonneg_left (ih (i + 1) (j + 1) (by omega)) hq0)
          (mul_le_mul_of_nonneg_left (ih (i + 1) j (by omega)) hq1')
      · rw [euV, if_neg hN, amV, if_neg hN]

/-- C7: on a valid lattice (`u > 1`, `0 ≤ q ≤ 1`) with positive risk-free
rate and non-negative horizon, spot, and strike, the American call price
equals the European call price exactly (no early-exercise premium for
calls on a non-dividend underlying). -/
theorem american_call_eq_european_call (m : binomial_tree_model) (S0 K : ℝ)
    (hu : 1 < m.u) (hr : 0 < m.r) (hT : 0 ≤ m.T)
    (hq0 : 0 ≤ m.q) (hq1 : m.q ≤ 1) (hS0 : 0 ≤ S0) (hK : 0 ≤ K) :
    american_price m S0 K true = european_price m S0 K true := by
  have hrdt : 0 ≤ m.r * m.dt := by
    have hdt : 0 ≤ m.dt := div_nonneg hT (Nat.cast_nonneg _)
    exact mul_nonneg hr.le hdt
  rw [american_price_eq, european_price_eq]
  exact amV_eq_euV_call m S0 K hu hq0 hq1 hS0 hK hrdt 0 0 le_rfl

/-- Witness for C7 at the reference configuration. -/
theorem american_call_eq_european_call_witness :
    american_price refModel 100 100 true = european_price refModel 100 100 true :=
  american_call_eq_european_call refModel 100 100 (by norm_num [refModel])
    (by norm_num [refModel]) (by norm_num [refModel])
    refModel_q_nonneg refModel_q_le_one (by norm_num) (by norm_num)

/-- C8: on a valid lattice (`0 ≤ q ≤ 1`), the American put price is at
least the European put price (the early-exercise premium is
non-negative). -/
theorem american_put_ge_european_put (m : binomial_tree_model) (S0 K : ℝ)
    (hq0 : 0 ≤ m.q) (hq1 : m.q ≤ 1) :
    european_price m S0 K false ≤ american_price m S0 K false := by
  rw [american_price_eq, european_price_eq]
  exact euV_le_amV m S0 K false hq0 hq1 0 0

/-- Witness for C8 at the reference configuration. -/
theorem american_put_ge_european_put_witness :
    european_price refModel 100 100 false ≤ american_price refModel 100 100 false :=
  american_put_ge_european_put refModel 100 100 refModel_q_nonneg refModel_q_le_one

/-! ### The notebook's reference run -/

lemma q_ref_lb : (0.58200701904 : ℝ) < refModel.q := by
  rw [refModel_q, lt_div_iff₀ (by norm_num)]
  nlinarith [exp_pt02_gt]

lemma q_ref_ub : refModel.q < 0.58200701958 := by
  rw [refModel_q, div_lt_iff₀ (by norm_num)]
  nlinarith [exp_pt02_lt]

lemma disc_ref_lb : (0.98019867323 : ℝ) < refModel.disc := by
  rw [refModel_disc]
  have hpos : (0 : ℝ) < Real.exp 0.02 := Real.exp_pos _
  have hinv : Real.exp 0.02 * (Real.exp 0.02)⁻¹ = 1 := mul_inv_cancel₀ (ne_of_gt hpos)
  nlinarith [exp_pt02_lt, inv_pos.mpr hpos]

lemma disc_ref_ub : refModel.disc < 0.98019867334 := by
  rw [refModel_disc]
  have hpos : (0 : ℝ) < Real.exp 0.02 := Real.exp_pos _
  have hinv : Real.exp 0.02 * (Real.exp 0.02)⁻¹ = 1 := mul_inv_cancel₀ (ne_of_gt hpos)
  nlinarith [exp_pt02_gt, inv_pos.mpr hpos]

lemma euV_ref_3_3 : euV refModel 100 100 true 3 3 = 33.1 := by
  conv_lhs => rw [euV]
  rw [if_neg (by norm_num [refModel])]
  norm_num [intrinsic, node_price, refModel, binomial_tree_model.d, max_def]

lemma euV_ref_3_2 : euV refModel 100 100 true 3 2 = 10 := by
  conv_lhs => rw [euV]
  rw [if_neg (by norm_num [refModel])]
  norm_num [intrinsic, node_price, refModel, binomial_tree_model.d, max_def]

lemma euV_ref_3_1 : euV refModel 100 100 true 3 1 = 0 := by
  conv_lhs => rw [euV]
  rw [if_neg (by norm_num [refModel])]
  norm_num [intrinsic, node_price, refModel, binomial_tree_model.d, max_def]

lemma euV_ref_3_0 : euV refModel 100 100 true 3 0 = 0 := by
  conv_lhs => rw [euV]
  rw [if_neg (by norm_num [refModel])]
  norm_num [intrinsic, node_price, refModel, binomial_tree_model.d, max_def]

lemma amV_ref_3_3 : amV refModel 100 100 false 3 3 = 0 := by
  conv_lhs => rw [amV]
  rw [if_neg (by norm_num [refModel])]
  norm_num [intrinsic, node_price, refModel, binomial_tree_model.d, max_def]

lemma amV_ref_3_2 : amV refModel 100 100 false 3 2 = 0 := by
  conv_lhs => rw [amV]
  rw [if_neg (by norm_num [refModel])]
  norm_num [intrinsic, node_price, refModel, binomial_tree_model.d, max_def]

lemma amV_ref_3_1 : amV refModel 100 100 false 3 1 = 100 / 11 := by
  conv_lhs => rw [amV]
  rw [if_neg (by norm_num [refModel])]
  norm_num [intrinsic, node_price, refModel, binomial_tree_model.d, max_def]

lemma amV_ref_3_0 : amV refModel 100 100 false 3 0 = 33100 / 1331 := by
  conv_lhs => rw [amV]
  rw [if_neg (by norm_num [refModel])]
  norm_num [intrinsic, node_price, refModel, binomial_tree_model.d, max_def]

lemma outV_ref_3_3 : outV refModel 100 100 125 true true 3 3 = 0 := by
  conv_lhs => rw [outV]
  rw [if_pos (by simp only [knocked]; norm_num [node_price, refModel, binomial_tree_model.d])]

lemma outV_ref_3_2 : outV refModel 100 100 125 true true 3 2 = 10 := by
  conv_lhs => rw [outV]
  rw [if_neg (by simp only [knocked]; norm_num [node_price, refModel, binomial_tree_model.d]),
    if_neg (by norm_num [refModel])]
  norm_num [intrinsic, node_price, refModel, binomial_tree_model.d, max_def]

lemma outV_ref_3_1 : outV refModel 100 100 125 true true 3 1 = 0 := by
  conv_lhs => rw [outV]
  rw [if_neg (by simp only [knocked]; norm_num [node_price, refModel, binomial_tree_model.d]),
    if_neg (by norm_num [refModel])]
  norm_num [intrinsic, node_price, refModel, binomial_tree_model.d, max_def]

lemma outV_ref_3_0 : outV refModel 100 100 125 true true 3 0 = 0 := by
  conv_lhs => rw [outV]
  rw [if_neg (by simp only [knocked]; norm_num [node_price, refModel, binomial_tree_model.d]),
    if_neg (by norm_num [refModel])]
  norm_num [intrinsic, node_price, refModel, binomial_tree_model.d, max_def]

lemma euV_ref_2_2_eq : euV refModel 100 100 true 2 2 =
    refModel.disc * (refModel.q * 33.1 + (1 - refModel.q) * 10) := by
  conv_lhs => rw [euV]
  rw [if_pos (by norm_num [refModel]), euV_ref_3_3, euV_ref_3_2]

lemma euV_ref_2_2_lb : (22.98013266417 : ℝ) ≤ euV refModel 100 100 true 2 2 := by
  rw [euV_ref_2_2_eq]
  nlinarith [q_ref_lb, q_ref_ub, disc_ref_lb, disc_ref_ub]

lemma euV_ref_2_2_ub : euV refModel 100 100 true 2 2 ≤ 22.98013267899 := by
  rw [euV_ref_2_2_eq]
  nlinarith [q_ref_lb, q_ref_ub, disc_ref_lb, disc_ref_ub]

lemma euV_ref_2_1_eq : euV refModel 100 100 true 2 1 =
    refModel.disc * (refModel.q * 10 + (1 - refModel.q) * 0) := by
  conv_lhs => rw [euV]
  rw [if_pos (by norm_num [refModel]), euV_ref_3_2, euV_ref_3_1]

lemma euV_ref_2_1_lb : (5.70482507873 : ℝ) ≤ euV refModel 100 100 true 2 1 := by
  rw [euV_ref_2_1_eq]
  nlinarith [q_ref_lb, q_ref_ub, disc_ref_lb, disc_ref_ub]

lemma euV_ref_2_1_ub : euV refModel 100 100 true 2 1 ≤ 5.70482508467 := by
  rw [euV_ref_2_1_eq]
  nlinarith [q_ref_lb, q_ref_ub, disc_ref_lb, disc_ref_ub]

lemma euV_ref_2_0 : euV refModel 100 100 true 2 0 = 0 := by
  conv_lhs => rw [euV]
  rw [if_pos (by norm_num [refModel]), euV_ref_3_1, euV_ref_3_0]
  ring

lemma euV_ref_1_1_eq : euV refModel 100 100 true 1 1 =
    refModel.disc * (refModel.q * euV refModel 100 100 true 2 2 +
      (1 - refModel.q) * euV refModel 100 100 true 2 1) := by
  conv_lhs => rw [euV]
  rw [if_pos (by norm_num [refModel])]

lemma euV_ref_1_1_m_lb : (15.75917534953 : ℝ) ≤ refModel.q * euV refModel 100 100 true 2 2 +
    (1 - refModel.q) * euV refModel 100 100 true 2 1 := by
  nlinarith [q_ref_lb, q_ref_ub, euV_ref_2_2_lb, euV_ref_2_2_ub, euV_ref_2_1_lb, euV_ref_2_1_ub]

lemma euV_ref_1_1_m_ub : refModel.q * euV refModel 100 100 true 2 2 +
    (1 - refModel.q) * euV refModel 100 100 true 2 1 ≤ 15.75917536997 := by
  nlinarith [q_ref_lb, q_ref_ub, euV_ref_2_2_lb, euV_ref_2_2_ub, euV_ref_2_1_lb, euV_ref_2_1_ub]

lemma euV_ref_1_1_lb : (15.4471227688 : ℝ) ≤ euV refModel 100 100 true 1 1 := by
  rw [euV_ref_1_1_eq]
  nlinarith [euV_ref_1_1_m_lb, euV_ref_1_1_m_ub, disc_ref_lb, disc_ref_ub]

lemma euV_ref_1_1_ub : euV refModel 100 100 true 1 1 ≤ 15.44712279058 := by
  rw [euV_ref_1_1_eq]
  nlinarith [euV_ref_1_1_m_lb, euV_ref_1_1_m_ub, disc_ref_lb, disc_ref_ub]

lemma euV_ref_1_0_eq : euV refModel 100 100 true 1 0 =
    refModel.disc * (refModel.q * euV refModel 100 100 true 2 1 +
      (1 - refModel.q) * 0) := by
  conv_lhs => rw [euV]
  rw [if_pos (by norm_num [refModel]), euV_ref_2_0]

lemma euV_ref_1_0_m_lb : (3.32024823821 : ℝ) ≤ refModel.q * euV refModel 100 100 true 2 1 +
    (1 - refModel.q) * 0 := by
  nlinarith [q_ref_lb, q_ref_ub, euV_ref_2_1_lb, euV_ref_2_1_ub]

lemma euV_ref_1_0_m_ub : refModel.q * euV refModel 100 100 true 2 1 +
    (1 - refModel.q) * 0 ≤ 3.32024824476 := by
  nlinarith [q_ref_lb, q_ref_ub, euV_ref_2_1_lb, euV_ref_2_1_ub]

lemma euV_ref_1_0_lb : (3.25450291788 : ℝ) ≤ euV refModel 100 100 true 1 0 := by
  rw [euV_ref_1_0_eq]
  nlinarith [euV_ref_1_0_m_lb, euV_ref_1_0_m_ub, disc_ref_lb, disc_ref_ub]

lemma euV_ref_1_0_ub : euV refModel 100 100 true 1 0 ≤ 3.25450292468 := by
  rw [euV_ref_1_0_eq]
  nlinarith [euV_ref_1_0_m_lb, euV_ref_1_0_m_ub, disc_ref_lb, disc_ref_ub]

lemma euV_ref_0_0_eq : euV refModel 100 100 true 0 0 =
    refModel.disc * (refModel.q * euV refModel 100 100 true 1 1 +
      (1 - refModel.q) * euV refModel 100 100 true 1 0) := by
  conv_lhs => rw [euV]
  rw [if_pos (by norm_num [refModel])]

lemma euV_ref_0_0_m_lb : (10.3506932516 : ℝ) ≤ refModel.q * euV refModel 100 100 true 1 1 +
    (1 - refModel.q) * euV refModel 100 100 true 1 0 := by
  nlinarith [q_ref_lb, q_ref_ub, euV_ref_1_1_lb, euV_ref_1_1_ub, euV_ref_1_0_lb, euV_ref_1_0_ub]

lemma euV_ref_0_0_m_ub : refModel.q * euV refModel 100 100 true 1 1 +
    (1 - refModel.q) * euV refModel 100 100 true 1 0 ≤ 10.35069327371 := by
  nlinarith [q_ref_lb, q_ref_ub, euV_ref_1_1_lb, euV_ref_1_1_ub, euV_ref_1_0_lb, euV_ref_1_0_ub]

lemma euro_ref_bounds :
    (10.14573579222 : ℝ) ≤ european_price refModel 100 100 true ∧
    european_price refModel 100 100 true ≤ 10.14573581504 := by
  constructor <;> rw [european_price_eq, euV_ref_0_0_eq]
  · nlinarith [euV_ref_0_0_m_lb, euV_ref_0_0_m_ub, disc_ref_lb, disc_ref_ub]
  · nlinarith [euV_ref_0_0_m_lb, euV_ref_0_0_m_ub, disc_ref_lb, disc_ref_ub]

lemma amV_ref_2_2 : amV refModel 100 100 false 2 2 = 0 := by
  conv_lhs => rw [amV]
  rw [if_pos (by norm_num [refModel]), amV_ref_3_3, amV_ref_3_2,
    show intrinsic false 100 (node_price refModel 100 2 2) = 0 from by
      norm_num [intrinsic, node_price, refModel, binomial_tree_model.d, max_def],
    show refModel.disc * (refModel.q * 0 + (1 - refModel.q) * 0) = 0 from by ring, max_self]

lemma amV_ref_2_1_eq : amV refModel 100 100 false 2 1 =
    max 0 (refModel.disc * (refModel.q * 0 + (1 - refModel.q) * (100 / 11))) := by
  conv_lhs => rw [amV]
  rw [if_pos (by norm_num [refModel]), amV_ref_3_2, amV_ref_3_1,
    show intrinsic false 100 (node_price refModel 100 2 1) = 0 from by
      norm_num [intrinsic, node_price, refModel, binomial_tree_model.d, max_def]]

lemma amV_ref_2_1_lb : (3.72469240751 : ℝ) ≤ amV refModel 100 100 false 2 1 := by
  rw [amV_ref_2_1_eq]
  refine le_trans ?_ (le_max_right _ _)
  nlinarith [q_ref_lb, q_ref_ub, disc_ref_lb, disc_ref_ub]

lemma amV_ref_2_1_ub : amV refModel 100 100 false 2 1 ≤ 3.72469241276 := by
  rw [amV_ref_2_1_eq]
  refine max_le (by norm_num) ?_
  nlinarith [q_ref_lb, q_ref_ub, disc_ref_lb, disc_ref_ub]

lemma amV_ref_2_0 : amV refModel 100 100 false 2 0 = 2100 / 121 := by
  conv_lhs => rw [amV]
  rw [if_pos (by norm_num [refModel]), amV_ref_3_1, amV_ref_3_0,
    show intrinsic false 100 (node_price refModel 100 2 0) = 2100 / 121 from by
      norm_num [intrinsic, node_price, refModel, binomial_tree_model.d, max_def]]
  refine max_eq_left ?_
  nlinarith [q_ref_lb, q_ref_ub, disc_ref_lb, disc_ref_ub]

lemma amV_ref_1_1_eq : amV refModel 100 100 false 1 1 =
    max 0 (refModel.disc * (refModel.q * 0 +
      (1 - refModel.q) * amV refModel 100 100 false 2 1)) := by
  conv_lhs => rw [amV]
  rw [if_pos (by norm_num [refModel]), amV_ref_2_2,
    show intrinsic false 100 (node_price refModel 100 1 1) = 0 from by
      norm_num [intrinsic, node_price, refModel, binomial_tree_model.d, max_def]]

lemma amV_ref_1_1_m_lb : (1.55689528056 : ℝ) ≤ refModel.q * 0 +
    (1 - refModel.q) * amV refModel 100 100 false 2 1 := by
  nlinarith [q_ref_lb, q_ref_ub, amV_ref_2_1_lb, amV_ref_2_1_ub]

lemma amV_ref_1_1_m_ub : refModel.q * 0 +
    (1 - refModel.q) * amV refModel 100 100 false 2 1 ≤ 1.55689528477 := by
  nlinarith [q_ref_lb, q_ref_ub, amV_ref_2_1_lb, amV_ref_2_1_ub]

lemma amV_ref_1_1_lb : (1.52606668836 : ℝ) ≤ amV refModel 100 100 false 1 1 := by
  rw [amV_ref_1_1_eq]
  refine le_trans ?_ (le_max_right _ _)
  nlinarith [amV_ref_1_1_m_lb, amV_ref_1_1_m_ub, disc_ref_lb, disc_ref_ub]

lemma amV_ref_1_1_ub : amV refModel 100 100 false 1 1 ≤ 1.52606669267 := by
  rw [amV_ref_1_1_eq]
  refine max_le (by norm_num) ?_
  nlinarith [amV_ref_1_1_m_lb, amV_ref_1_1_m_ub, disc_ref_lb, disc_ref_ub]

lemma amV_ref_1_0_eq : amV refModel 100 100 false 1 0 =
    max (100 / 11) (refModel.disc * (refModel.q * amV refModel 100 100 false 2 1 +
      (1 - refModel.q) * (2100 / 121))) := by
  conv_lhs => rw [amV]
  rw [if_pos (by norm_num [refModel]), amV_ref_2_0,
    show intrinsic false 100 (node_price refModel 100 1 0) = 100 / 11 from by
      norm_num [intrinsic, node_price, refModel, binomial_tree_model.d, max_def]]

lemma amV_ref_1_0_m_lb : (9.42222075407 : ℝ) ≤ refModel.q * amV refModel 100 100 false 2 1 +
    (1 - refModel.q) * (2100 / 121) := by
  nlinarith [q_ref_lb, q_ref_ub, amV_ref_2_1_lb, amV_ref_2_1_ub]

lemma amV_ref_1_0_m_ub : refModel.q * amV refModel 100 100 false 2 1 +
    (1 - refModel.q) * (2100 / 121) ≤ 9.42222076449 := by
  nlinarith [q_ref_lb, q_ref_ub, amV_ref_2_1_lb, amV_ref_2_1_ub]

lemma amV_ref_1_0_lb : (9.23564828201 : ℝ) ≤ amV refModel 100 100 false 1 0 := by
  rw [amV_ref_1_0_eq]
  refine le_trans ?_ (le_max_right _ _)
  nlinarith [amV_ref_1_0_m_lb, amV_ref_1_0_m_ub, disc_ref_lb, disc_ref_ub]

lemma amV_ref_1_0_ub : amV refModel 100 100 false 1 0 ≤ 9.23564829327 := by
  rw [amV_ref_1_0_eq]
  refine max_le (by norm_num) ?_
  nlinarith [amV_ref_1_0_m_lb, amV_ref_1_0_m_ub, disc_ref_lb, disc_ref_ub]

lemma amV_ref_0_0_eq : amV refModel 100 100 false 0 0 =
    max 0 (refModel.disc * (refModel.q * amV refModel 100 100 false 1 1 +
      (1 - refModel.q) * amV refModel 100 100 false 1 0)) := by
  conv_lhs => rw [amV]
  rw [if_pos (by norm_num [refModel]),
    show intrinsic false 100 (node_price refModel 100 0 0) = 0 from by
      norm_num [intrinsic, node_price, refModel, binomial_tree_model.d, max_def]]

lemma amV_ref_0_0_m_lb : (4.74861767648 : ℝ) ≤ refModel.q * amV refModel 100 100 false 1 1 +
    (1 - refModel.q) * amV refModel 100 100 false 1 0 := by
  nlinarith [q_ref_lb, q_ref_ub, amV_ref_1_1_lb, amV_ref_1_1_ub, amV_ref_1_0_lb, amV_ref_1_0_ub]

lemma amV_ref_0_0_m_ub : refModel.q * amV refModel 100 100 false 1 1 +
    (1 - refModel.q) * amV refModel 100 100 false 1 0 ≤ 4.74861768786 := by
  nlinarith [q_ref_lb, q_ref_ub, amV_ref_1_1_lb, amV_ref_1_1_ub, amV_ref_1_0_lb, amV_ref_1_0_ub]

lemma amer_ref_bounds :
    (4.65458874616 : ℝ) ≤ american_price refModel 100 100 false ∧
    american_price refModel 100 100 false ≤ 4.65458875784 := by
  constructor <;> rw [american_price_eq, amV_ref_0_0_eq]
  · refine le_trans ?_ (le_max_right _ _)
    nlinarith [amV_ref_0_0_m_lb, amV_ref_0_0_m_ub, disc_ref_lb, disc_ref_ub]
  · refine max_le (by norm_num) ?_
    nlinarith [amV_ref_0_0_m_lb, amV_ref_0_0_m_ub, disc_ref_lb, disc_ref_ub]

lemma outV_ref_2_2_eq : outV refModel 100 100 125 true true 2 2 =
    refModel.disc * (refModel.q * 0 + (1 - refModel.q) * 10) := by
  conv_lhs => rw [outV]
  rw [if_neg (by simp only [knocked]; norm_num [node_price, refModel, binomial_tree_model.d]),
    if_pos (by norm_num [refModel]), outV_ref_3_3, outV_ref_3_2]

lemma outV_ref_2_2_lb : (4.09716164827 : ℝ) ≤ outV refModel 100 100 125 true true 2 2 := by
  rw [outV_ref_2_2_eq]
  nlinarith [q_ref_lb, q_ref_ub, disc_ref_lb, disc_ref_ub]

lemma outV_ref_2_2_ub : outV refModel 100 100 125 true true 2 2 ≤ 4.09716165403 := by
  rw [outV_ref_2_2_eq]
  nlinarith [q_ref_lb, q_ref_ub, disc_ref_lb, disc_ref_ub]

lemma outV_ref_2_1_eq : outV refModel 100 100 125 true true 2 1 =
    refModel.disc * (refModel.q * 10 + (1 - refModel.q) * 0) := by
  conv_lhs => rw [outV]
  rw [if_neg (by simp only [knocked]; norm_num [node_price, refModel, binomial_tree_model.d]),
    if_pos (by norm_num [refModel]), outV_ref_3_2, outV_ref_3_1]

lemma outV_ref_2_1_lb : (5.70482507873 : ℝ) ≤ outV refModel 100 100 125 true true 2 1 := by
  rw [outV_ref_2_1_eq]
  nlinarith [q_ref_lb, q_ref_ub, disc_ref_lb, disc_ref_ub]

lemma outV_ref_2_1_ub : outV refModel 100 100 125 true true 2 1 ≤ 5.70482508467 := by
  rw [outV_ref_2_1_eq]
  nlinarith [q_ref_lb, q_ref_ub, disc_ref_lb, disc_ref_ub]

lemma outV_ref_2_0 : outV refModel 100 100 125 true true 2 0 = 0 := by
  conv_lhs => rw [outV]
  rw [if_neg (by simp only [knocked]; norm_num [node_price, refModel, binomial_tree_model.d]),
    if_pos (by norm_num [refModel]), outV_ref_3_1, outV_ref_3_0]
  ring

lemma outV_ref_1_1_eq : outV refModel 100 100 125 true true 1 1 =
    refModel.disc * (refModel.q * outV refModel 100 100 125 true true 2 2 +
      (1 - refModel.q) * outV refModel 100 100 125 true true 2 1) := by
  conv_lhs => rw [outV]
  rw [if_neg (by simp only [knocked]; norm_num [node_price, refModel, binomial_tree_model.d]),
    if_pos (by norm_num [refModel])]

lemma outV_ref_1_1_m_lb : (4.76915367708 : ℝ) ≤
    refModel.q * outV refModel 100 100 125 true true 2 2 +
      (1 - refModel.q) * outV refModel 100 100 125 true true 2 1 := by
  nlinarith [q_ref_lb, q_ref_ub, outV_ref_2_2_lb, outV_ref_2_2_ub,
    outV_ref_2_1_lb, outV_ref_2_1_ub]

lemma outV_ref_1_1_m_ub : refModel.q * outV refModel 100 100 125 true true 2 2 +
    (1 - refModel.q) * outV refModel 100 100 125 true true 2 1 ≤ 4.76915368379 := by
  nlinarith [q_ref_lb, q_ref_ub, outV_ref_2_2_lb, outV_ref_2_2_ub,
    outV_ref_2_1_lb, outV_ref_2_1_ub]

lemma outV_ref_1_1_lb : (4.6747181067 : ℝ) ≤ outV refModel 100 100 125 true true 1 1 := by
  rw [outV_ref_1_1_eq]
  nlinarith [outV_ref_1_1_m_lb, outV_ref_1_1_m_ub, disc_ref_lb, disc_ref_ub]

lemma outV_ref_1_1_ub : outV refModel 100 100 125 true true 1 1 ≤ 4.67471811381 := by
  rw [outV_ref_1_1_eq]
  nlinarith [outV_ref_1_1_m_lb, outV_ref_1_1_m_ub, disc_ref_lb, disc_ref_ub]

lemma outV_ref_1_0_eq : outV refModel 100 100 125 true true 1 0 =
    refModel.disc * (refModel.q * outV refModel 100 100 125 true true 2 1 +
      (1 - refModel.q) * 0) := by
  conv_lhs => rw [outV]
  rw [if_neg (by simp only [knocked]; norm_num [node_price, refModel, binomial_tree_model.d]),
    if_pos (by norm_num [refModel]), outV_ref_2_0]

lemma outV_ref_1_0_m_lb : (3.32024823821 : ℝ) ≤
    refModel.q * outV refModel 100 100 125 true true 2 1 + (1 - refModel.q) * 0 := by
  nlinarith [q_ref_lb, q_ref_ub, outV_ref_2_1_lb, outV_ref_2_1_ub]

lemma outV_ref_1_0_m_ub : refModel.q * outV refModel 100 100 125 true true 2 1 +
    (1 - refModel.q) * 0 ≤ 3.32024824476 := by
  nlinarith [q_ref_lb, q_ref_ub, outV_ref_2_1_lb, outV_ref_2_1_ub]

lemma outV_ref_1_0_lb : (3.25450291788 : ℝ) ≤ outV refModel 100 100 125 true true 1 0 := by
  rw [outV_ref_1_0_eq]
  nlinarith [outV_ref_1_0_m_lb, outV_ref_1_0_m_ub, disc_ref_lb, disc_ref_ub]

lemma outV_ref_1_0_ub : outV refModel 100 100 125 true true 1 0 ≤ 3.25450292468 := by
  rw [outV_ref_1_0_eq]
  nlinarith [outV_ref_1_0_m_lb, outV_ref_1_0_m_ub, disc_ref_lb, disc_ref_ub]

lemma outV_ref_0_0_eq : outV refModel 100 100 125 true true 0 0 =
    refModel.disc * (refModel.q * outV refModel 100 100 125 true true 1 1 +
      (1 - refModel.q) * outV refModel 100 100 125 true true 1 0) := by
  conv_lhs => rw [outV]
  rw [if_neg (by simp only [knocked]; norm_num [node_price, refModel, binomial_tree_model.d]),
    if_pos (by norm_num [refModel])]

lemma outV_ref_0_0_m_lb : (4.08107812632 : ℝ) ≤
    refModel.q * outV refModel 100 100 125 true true 1 1 +
      (1 - refModel.q) * outV refModel 100 100 125 true true 1 0 := by
  nlinarith [q_ref_lb, q_ref_ub, outV_ref_1_1_lb, outV_ref_1_1_ub,
    outV_ref_1_0_lb, outV_ref_1_0_ub]

lemma outV_ref_0_0_m_ub : refModel.q * outV refModel 100 100 125 true true 1 1 +
    (1 - refModel.q) * outV refModel 100 100 125 true true 1 0 ≤ 4.08107813407 := by
  nlinarith [q_ref_lb, q_ref_ub, outV_ref_1_1_lb, outV_ref_1_1_ub,
    outV_ref_1_0_lb, outV_ref_1_0_ub]

lemma barrier_ref_bounds :
    (4.00026736476 : ℝ) ≤ outV refModel 100 100 125 true true 0 0 ∧
    outV refModel 100 100 125 true true 0 0 ≤ 4.00026737282 := by
  constructor <;> rw [outV_ref_0_0_eq]
  · nlinarith [outV_ref_0_0_m_lb, outV_ref_0_0_m_ub, disc_ref_lb, disc_ref_ub]
  · nlinarith [outV_ref_0_0_m_lb, outV_ref_0_0_m_ub, disc_ref_lb, disc_ref_ub]

/-- C9: at the reference configuration
`S0 = 100, K = 100, T = 1, r = 0.06, u = 1.1, N = 3`, the American put
price is `4.65459`, the European call price is `10.14574`, and the
up-and-out barrier call price with `H = 125` is `4.00027`, each to the
stated 5-decimal precision. -/
theorem reference_run_values :
    |american_price refModel 100 100 false - 4.65459| < 0.000005 ∧
    |european_price refModel 100 100 true - 10.14574| < 0.000005 ∧
    barrier_price refModel 100 100 125 true .up_and_out =
      .ok (barrier_value refModel 100 100 125 true .up_and_out) ∧
    |barrier_value refModel 100 100 125 true .up_and_out - 4.00027| < 0.000005 := by
  obtain ⟨hal, hau⟩ := amer_ref_bounds
  obtain ⟨hel, heu⟩ := euro_ref_bounds
  obtain ⟨hbl, hbu⟩ := barrier_ref_bounds
  refine ⟨?_, ?_, ?_, ?_⟩
  · rw [abs_lt]
    constructor <;> linarith
  · rw [abs_lt]
    constructor <;> linarith
  · rw [show barrier_price refModel 100 100 125 true .up_and_out =
        (if (125 : ℝ) ≤ 100 then .error .barrier_level_error
          else .ok (outV refModel 100 100 125 true true 0 0)) from rfl,
      if_neg (by norm_num)]
    rfl
  · rw [show barrier_value refModel 100 100 125 true .up_and_out =
        outV refModel 100 100 125 true true 0 0 from rfl, abs_lt]
    constructor <;> linarith

end BinomOptions
